import Mathlib

/-!
# Verification of the Gemini ⇄ Anthropic message converters

Shallow embedding of `server/computer_use/handlers/gemini/message_converter.py`
and `server/computer_use/handlers/gemini/response_converter.py`.

Python dictionaries are modelled as ordered association lists with unique keys
(`PDict`), with update-in-place semantics matching CPython dicts. JSON-like
argument values are modelled by the inductive type `Value`.

The external key-combo canonicalizer `normalize_key_combo` (defined in
`server/computer_use/handlers/utils/key_mapping_utils.py`, which is not part of
the sources under verification) is modelled as an abstract parameter
`nk : String → Except String String`; the `Except` codomain models the
possibility, acknowledged by the spec's error-handling section, that the
pipeline may raise.
-/

/-- JSON-like value, as carried in tool-call argument dicts.
`tuple` is kept distinct from `list` because the converter turns a
coordinate *list* into a *tuple* (`tuple(tool_input['coordinate'])`). -/
inductive Value where
  | str (s : String)
  | int (n : Int)
  | bool (b : Bool)
  | list (xs : List Value)
  | tuple (xs : List Value)
  | dict (xs : List (String × Value))
  deriving Repr

/-- Ordered string-keyed dictionary, modelling a Python `dict`. -/
abbrev PDict := List (String × Value)

/-- `d[k]` lookup: first (and, under unique keys, only) binding of `k`. -/
def dget (d : PDict) (k : String) : Option Value :=
  match d with
  | [] => none
  | (k', v) :: rest => if k' = k then some v else dget rest k

/-- `k in d` membership test. -/
def dmem (d : PDict) (k : String) : Bool :=
  (dget d k).isSome

/-- `d[k] = v` assignment: CPython updates an existing key in place
(keeping its position) and appends a fresh key at the end. -/
def dset (d : PDict) (k : String) (v : Value) : PDict :=
  match d with
  | [] => [(k, v)]
  | (k', v') :: rest => if k' = k then (k, v) :: rest else (k', v') :: dset rest k v

/-- `d.pop(k)`: remove the binding of `k`, keeping the order of the rest. -/
def dpop (d : PDict) (k : String) : PDict :=
  match d with
  | [] => []
  | (k', v') :: rest => if k' = k then rest else (k', v') :: dpop rest k

/-- String-valued ordered map with the same update semantics, used for the
`tool_name_map : dict[str, str]` correlation index. -/
abbrev SMap := List (String × String)

def sget (m : SMap) (k : String) : Option String :=
  match m with
  | [] => none
  | (k', v) :: rest => if k' = k then some v else sget rest k

def sset (m : SMap) (k : String) (v : String) : SMap :=
  match m with
  | [] => [(k, v)]
  | (k', v') :: rest => if k' = k then (k, v) :: rest else (k', v') :: sset rest k v

/-- `m.get(k, dflt)` on the string map. -/
def sgetD (m : SMap) (k dflt : String) : String :=
  (sget m k).getD dflt

/- ### Python primitive helpers -/

/-- ASCII lower-casing, modelling `str.lower()` on the identifiers that occur
in tool arguments. -/
def pyLower (s : String) : String :=
  String.mk (s.data.map Char.toLower)

/-- Digit run → value, helper for `pyParseInt`. -/
def digitsVal (cs : List Char) : Option Nat :=
  cs.foldl (fun acc c => match acc with
    | none => none
    | some n => if c.isDigit then some (n * 10 + (c.toNat - '0'.toNat)) else none)
    (some 0)

/-- `int(s)` on a string: optional surrounding spaces, optional sign, then a
nonempty digit run; anything else raises `ValueError` (modelled as `none`). -/
def pyParseInt (s : String) : Option Int :=
  let cs := s.toList.dropWhile (· = ' ')
  let cs := (cs.reverse.dropWhile (· = ' ')).reverse
  match cs with
  | [] => none
  | '-' :: rest => if rest = [] then none else (digitsVal rest).map (fun n => -(n : Int))
  | '+' :: rest => if rest = [] then none else (digitsVal rest).map (fun n => (n : Int))
  | _ => (digitsVal cs).map (fun n => (n : Int))

/-- `int(v)` on a `Value`: ints pass through, bools coerce, numeric strings
parse, everything else raises (modelled as `none`). -/
def pyToInt (v : Value) : Option Int :=
  match v with
  | .int n => some n
  | .bool b => some (if b then 1 else 0)
  | .str s => pyParseInt s
  | _ => none

/-- `str(v)`: exact for the scalar values the converter stringifies;
containers get a simple structural rendering standing in for `repr`. -/
def pyStrV (v : Value) : String :=
  match v with
  | .str s => s
  | .int n => toString n
  | .bool b => if b then "True" else "False"
  | .list _ => "<list>"
  | .tuple _ => "<tuple>"
  | .dict _ => "<dict>"

/-- Scalar values, on which `pyStrV` models Python `str()` exactly (the
container renderings above are placeholders for `repr`, which no claim
exercises). -/
def Value.isScalar : Value → Bool
  | .str _ => true
  | .int _ => true
  | .bool _ => true
  | _ => false

/-- `f'toolu_{idx:02d}'`: zero-pad to (at least) width 2. -/
def pad2 (n : Nat) : String :=
  if n < 10 then "0" ++ toString n else toString n


/- ### `response_converter.py` -/

/-- The `COMPUTER_ACTIONS` set: primitive action names exposed to the model as
individual functions. -/
def COMPUTER_ACTIONS : List String :=
  ["screenshot", "left_click", "mouse_move", "type", "key", "scroll",
   "left_click_drag", "right_click", "middle_click", "double_click",
   "left_mouse_down", "left_mouse_up", "hold_key", "wait"]

/-- `tool_input.get('action') == s`: Python equality of a looked-up value
with a string literal. -/
def actionIs (d : PDict) (s : String) : Bool :=
  match dget d "action" with
  | some (.str t) => t = s
  | _ => false

/-- The allowed scroll directions. -/
def allowedDirections : List String := ["up", "down", "left", "right"]

/-- Stage "if tool_name in COMPUTER_ACTIONS: tool_input['action'] =
tool_name" of `process_computer_tool` (`tool_input or {}` is the identity on
our dict model). -/
def pct_inject (tool_name : String) (ti : PDict) : PDict :=
  if tool_name ∈ COMPUTER_ACTIONS then dset ti "action" (.str tool_name) else ti

/-- Stage "convert coordinate list to tuple if present". -/
def pct_coord (ti : PDict) : PDict :=
  match dget ti "coordinate" with
  | some (.list xs) => dset ti "coordinate" (.tuple xs)
  | _ => ti

/-- Stage "map legacy 'click' action to 'left_click'". -/
def pct_click (ti : PDict) : PDict :=
  if actionIs ti "click" then dset ti "action" (.str "left_click") else ti

/-- Stage "normalize key combos and key/text field for key-like actions";
only this stage calls the external `normalize_key_combo` (`nk`), so only it
can fail. -/
def pct_key (nk : String → Except String String) (ti : PDict) :
    Except String PDict :=
  if actionIs ti "key" ∨ actionIs ti "hold_key" then
    let ti := if ¬ dmem ti "text" ∧ dmem ti "key" then
        match dget ti "key" with
        | some v => dset (dpop ti "key") "text" v
        | none => ti
      else ti
    match dget ti "text" with
    | some (.str s) => do
        let s' ← nk s
        pure (dset ti "text" (.str s'))
    | _ => pure ti
  else pure ti

/-- Stage "special handling for scroll": coerce `scroll_amount` to int
(leaving the original value when coercion fails — the `except` branch only
logs) and lower-case `scroll_direction`, storing it whether or not it is an
allowed direction (an invalid one is only logged). -/
def pct_scroll (ti : PDict) : PDict :=
  if actionIs ti "scroll" then
    let ti := match dget ti "scroll_amount" with
      | some v => match pyToInt v with
                  | some n => dset ti "scroll_amount" (.int n)
                  | none => ti
      | none => ti
    match dget ti "scroll_direction" with
    | some v => dset ti "scroll_direction" (.str (pyLower (pyStrV v)))
    | none => ti
  else ti

/-- `process_computer_tool(tool_name, tool_input)`: the stages above in
source order, then the `api_type = 'computer_20250124'` stamp.
`nk` models the external `normalize_key_combo`; a `.error` result models an
exception escaping the pipeline (caught by `convert_function_call`). -/
def process_computer_tool (nk : String → Except String String)
    (tool_name : String) (tool_input : PDict) : Except String PDict := do
  let ti := pct_inject tool_name tool_input
  let ti := pct_coord ti
  let ti := pct_click ti
  let ti ← pct_key nk ti
  let ti := pct_scroll ti
  pure (dset ti "api_type" (.str "computer_20250124"))

/-- `process_extraction_tool(tool_input)`. -/
def process_extraction_tool (tool_input : PDict) : PDict :=
  if ¬ dmem tool_input "data" then
    match dget tool_input "name", dget tool_input "result" with
    | some nv, some rv => [("data", .dict [("name", nv), ("result", rv)])]
    | _, _ => tool_input    -- warning only: missing required fields
  else
    tool_input              -- warnings only: structure left intact

/-- Item inside a `tool_result`'s `content` list (text or base64 image). -/
inductive RItem where
  | text (t : String)
  | image (mediaType : String) (data : String)
  deriving Repr

/-- Canonical (Anthropic-side) content block. -/
inductive CBlock where
  | text (t : String)
  | image (mediaType : String) (data : String)
  | toolUse (id : String) (name : String) (input : PDict)
  /-- `tool_result` dict: `tool_use_id`, optional `content` list, the
  `is_error` flag, and an optional `error` key (checked by `'error' in block`). -/
  | toolResult (toolUseId : String) (content : Option (List RItem))
      (isError : Bool) (error : Option String)
  | other
  deriving Repr

/-- `convert_function_call(function_call, call_id)`: normalize one Gemini
function call into an Anthropic block. A pipeline exception becomes a
diagnostic text block. -/
def convert_function_call (nk : String → Except String String)
    (fcName : String) (fcArgs : PDict) (call_id : String) : CBlock :=
  if fcName = "computer" ∨ fcName ∈ COMPUTER_ACTIONS then
    match process_computer_tool nk fcName fcArgs with
    | .ok ti => .toolUse call_id "computer" ti
    | .error e => .text ("Error processing function call " ++ fcName ++ ": " ++ e)
  else if fcName = "extraction" then
    .toolUse call_id "extraction" (process_extraction_tool fcArgs)
  else
    .toolUse call_id fcName fcArgs

/-- One part of a Gemini candidate: optional `text` attribute (appended only
when truthy, i.e. nonempty) and optional `function_call` with name and args. -/
structure GPart where
  text : Option String
  function_call : Option (String × PDict)

/-- First-candidate data: optional `content` (whose `parts` we carry
directly) and the stringified `finish_reason`. -/
structure Candidate where
  content : Option (List GPart)
  finish_reason : String

/-- A Gemini response: its list of candidates. -/
structure GResponse where
  candidates : List Candidate

/-- `STOP_REASON_MAP.get(finish_reason, 'end_turn')`. -/
def stopReasonMap (finish_reason : String) : String :=
  if finish_reason = "STOP" then "end_turn"
  else if finish_reason = "MAX_TOKENS" then "max_tokens"
  else if finish_reason = "SAFETY" then "end_turn"
  else if finish_reason = "RECITATION" then "end_turn"
  else if finish_reason = "OTHER" then "end_turn"
  else if finish_reason = "BLOCKLIST" then "end_turn"
  else if finish_reason = "PROHIBITED_CONTENT" then "end_turn"
  else if finish_reason = "SPII" then "end_turn"
  else "end_turn"

/-- Blocks contributed by one part at index `idx`: a text block when `text`
is truthy, then the converted function call when present. -/
def partBlocks (nk : String → Except String String) (idx : Nat) (p : GPart) :
    List CBlock :=
  (match p.text with
   | some t => if t ≠ "" then [CBlock.text t] else []
   | none => []) ++
  (match p.function_call with
   | some (nm, args) => [convert_function_call nk nm args ("toolu_" ++ pad2 idx)]
   | none => [])

/-- Whether a part carries a (truthy) function call. -/
def hasFC (p : GPart) : Bool :=
  p.function_call.isSome

/-- `convert_gemini_to_anthropic_response(response)`: content blocks plus
stop reason. -/
def convert_gemini_to_anthropic_response (nk : String → Except String String)
    (r : GResponse) : List CBlock × String :=
  match r.candidates with
  | [] => ([], "end_turn")
  | c :: _ =>
    match c.content with
    | none => ([], stopReasonMap c.finish_reason)
    | some parts =>
      let blocks := (parts.enum.flatMap fun pi => partBlocks nk pi.1 pi.2)
      let function_call_count := parts.countP hasFC
      (blocks, if 0 < function_call_count then "tool_use"
               else stopReasonMap c.finish_reason)

/- ### `message_converter.py` -/

/-- A canonical message's `content`: a plain string or a block list (the
`str` / `list` cases of `BetaMessageParam.content`). -/
inductive MContent where
  | str (s : String)
  | blocks (bs : List CBlock)
  deriving Repr

/-- A canonical (Anthropic-side) message. -/
structure Msg where
  role : String
  content : MContent
  deriving Repr

/-- A Gemini provider part (named `Part` in the spec; `GeminiPart` here to
avoid clashing with Mathlib's `Part`). -/
inductive GeminiPart where
  | text (t : String)
  | inlineData (mimeType : String) (data : String)
  | functionCall (name : String) (args : PDict)
  | functionResponse (name : String) (response : PDict)
  deriving Repr

/-- A Gemini message. -/
structure GMsg where
  role : String
  parts : List GeminiPart
  deriving Repr

/-- `block.get('type') == 'tool_result'`. -/
def isToolResultB : CBlock → Bool
  | .toolResult _ _ _ _ => true
  | _ => false

/-- `_convert_content_blocks(content)`: text / base64 image / tool_use to
parts; empty text and all other block kinds silently dropped. -/
def convertContentBlocks (bs : List CBlock) : List GeminiPart :=
  bs.flatMap fun b =>
    match b with
    | .text t => if t ≠ "" then [GeminiPart.text t] else []
    | .image mt d => [GeminiPart.inlineData mt d]
    | .toolUse _ nm input => [GeminiPart.functionCall nm input]
    | _ => []

/-- One iteration of the `for content_item in block['content']` loop of
`_process_tool_result_block`: a text item overwrites `response['output']`,
an image item records the inline-data part (overwriting any earlier one)
and sets `response['has_screenshot']`. -/
def trStep (acc : PDict × Option GeminiPart) (item : RItem) :
    PDict × Option GeminiPart :=
  match item with
  | .text t => (dset acc.1 "output" (.str t), acc.2)
  | .image mt d =>
      (dset acc.1 "has_screenshot" (.bool true), some (GeminiPart.inlineData mt d))

/-- `_process_tool_result_block(block)`: returns
`(tool_use_id, response_content, image_data or none)`. The source checks
`'error' in block` — the `is_error` flag is never read. A falsy (empty)
`tool_use_id` falls back to `'tool_call'`. -/
def processToolResultBlock (b : CBlock) : String × PDict × Option GeminiPart :=
  match b with
  | .toolResult tid content _isError err =>
    let tool_use_id := if tid = "" then "tool_call" else tid
    let (rc, img) :=
      match err with
      | some e => ([("error", Value.str e)], none)
      | none =>
        match content with
        | some items => items.foldl trStep ([], none)
        | none => ([], none)
    let rc := if rc.isEmpty then [("output", Value.str "Tool executed successfully")] else rc
    (tool_use_id, rc, img)
  | _ => ("tool_call", [("output", Value.str "Tool executed successfully")], none)

/-- Parts contributed by the `tool_result` blocks of one message of a run:
the function-response parts and the accumulated image parts, in block
order. -/
def blockResults (tmap : SMap) : List CBlock → List GeminiPart × List GeminiPart
  | [] => ([], [])
  | b :: bs =>
    let (frs, imgs) := blockResults tmap bs
    if isToolResultB b then
      let (tool_use_id, response_content, image_data) := processToolResultBlock b
      let tool_name := sgetD tmap tool_use_id tool_use_id
      (GeminiPart.functionResponse tool_name response_content :: frs,
       (match image_data with | some p => [p] | none => []) ++ imgs)
    else (frs, imgs)

/-- The message `content` as a block list (empty for string content). -/
def contentBlocks (m : Msg) : List CBlock :=
  match m.content with
  | .blocks bs => bs
  | .str _ => []

/-- Loop condition of the tool-result run consumer: a `user` message whose
list content has at least one `tool_result` block. -/
def startsRun (m : Msg) : Bool :=
  m.role = "user" &&
  (match m.content with
   | .blocks bs => bs.any isToolResultB
   | .str _ => false)

/-- Build `tool_name_map` from the message preceding the run: its `tool_use`
blocks with truthy `id` and `name`. -/
def buildToolMap (prev : Option Msg) : SMap :=
  match prev with
  | none => []
  | some m =>
    if m.role = "assistant" then
      match m.content with
      | .blocks bs =>
        bs.foldl (fun acc b =>
          match b with
          | .toolUse id nm _ => if id ≠ "" ∧ nm ≠ "" then sset acc id nm else acc
          | _ => acc) []
      | .str _ => []
    else []

/-- The inner `while` of `_process_tool_result_messages`, consuming the run
from the front of the list. Returns the function-response parts, the
accumulated images, the consumed messages and the remaining suffix. -/
def processRun (tmap : SMap) : List Msg → List GeminiPart × List GeminiPart × List Msg × List Msg
  | [] => ([], [], [], [])
  | m :: rest =>
    if startsRun m then
      let (frs, imgs) := blockResults tmap (contentBlocks m)
      let (frs2, imgs2, consumed, rem) := processRun tmap rest
      (frs ++ frs2, imgs ++ imgs2, m :: consumed, rem)
    else ([], [], [], m :: rest)

/-- `convert_anthropic_to_gemini_messages`, as a recursion over the message
list. `prev` carries the message at `msg_idx - 1` (used to build the
correlation index for a tool-result run); it is `none` at the start. -/
def convertLoop (prev : Option Msg) (msgs : List Msg) : List GMsg :=
  match msgs with
  | [] => []
  | m :: rest =>
    let gemini_role := if m.role = "assistant" then "model" else "user"
    match m.content with
    | .str s => ⟨gemini_role, [GeminiPart.text s]⟩ :: convertLoop (some m) rest
    | .blocks bs =>
      if startsRun m then
        let tmap := buildToolMap prev
        let (frs1, imgs1) := blockResults tmap bs
        let pr := processRun tmap rest
        let parts := (frs1 ++ pr.1) ++ (imgs1 ++ pr.2.1)
        let prev' := (m :: pr.2.2.1).getLast (by simp)
        (if parts.isEmpty then [] else [GMsg.mk "user" parts]) ++
          convertLoop (some prev') pr.2.2.2
      else
        let parts := convertContentBlocks bs
        (if parts.isEmpty then [] else [GMsg.mk gemini_role parts]) ++
          convertLoop (some m) rest
termination_by msgs.length
decreasing_by
  all_goals simp only [List.length_cons]
  all_goals
    have hle :
        ∀ (tmap : SMap) (ms : List Msg),
          (processRun tmap ms).2.2.2.length ≤ ms.length := by
      intro tmap ms
      induction ms with
      | nil => simp [processRun]
      | cons m r ih =>
        by_cases h : startsRun m
        · simp only [processRun, h, if_pos]
          exact le_trans ih (Nat.le_succ _)
        · simp [processRun, h]
    have := hle (buildToolMap prev) rest
    omega

/-- `convert_anthropic_to_gemini_messages(messages)`. -/
def convert_anthropic_to_gemini_messages (msgs : List Msg) : List GMsg :=
  convertLoop none msgs

/-- The text carried by the last `Text` item of a result-content list. -/
def lastText : List RItem → Option String
  | [] => none
  | item :: rest =>
    match lastText rest with
    | some t => some t
    | none => match item with
              | .text t => some t
              | .image _ _ => none

/-- The `tool_use_id` field of a `tool_result` block (empty for others). -/
def trId : CBlock → String
  | .toolResult tid _ _ _ => tid
  | _ => ""

/-- Recognizer for `tool_use` blocks. -/
def isToolUseB : CBlock → Bool
  | .toolUse _ _ _ => true
  | _ => false

/-- Number of messages consumed by the run loop starting at the front of the
list: the length of the maximal prefix of run-condition messages. -/
def runConsumed : List Msg → Nat
  | [] => 0
  | m :: rest => if startsRun m then 1 + runConsumed rest else 0

/-- Effect of one iteration of the main `while msg_idx < len(messages)` loop
on the cursor `msg_idx`, read off from the source: string content advances
by one; a tool-result run advances past the whole consumed run; every other
message advances by one. -/
def nextIndex (msgs : List Msg) (i : Nat) : Nat :=
  match msgs.drop i with
  | [] => i
  | m :: rest =>
    match m.content with
    | .str _ => i + 1
    | .blocks _ => if startsRun m then i + 1 + runConsumed rest else i + 1


/- ### Dictionary lemmas -/

theorem dget_dset_self (d : PDict) (k : String) (v : Value) :
    dget (dset d k v) k = some v := by
  induction d with
  | nil => simp [dget, dset]
  | cons kv rest ih =>
    obtain ⟨k', v'⟩ := kv
    by_cases h : k' = k
    · simp [dget, dset, h]
    · simp [dget, dset, h, ih]

theorem dget_dset_ne (d : PDict) (k k' : String) (v : Value) (h : k ≠ k') :
    dget (dset d k v) k' = dget d k' := by
  induction d with
  | nil => simp [dget, dset, h]
  | cons kv rest ih =>
    obtain ⟨k0, v0⟩ := kv
    by_cases h0 : k0 = k
    · subst h0
      simp [dget, dset, h]
    · simp [dget, dset, h0, ih]

theorem dget_isEmpty_false (d : PDict) (k : String) (v : Value)
    (h : dget d k = some v) : d.isEmpty = false := by
  cases d with
  | nil => simp [dget] at h
  | cons kv rest => simp [List.isEmpty]

/- ### Tool-result content-loop lemmas -/


/-- The content loop never writes an `error` key. -/
theorem foldl_trStep_error (items : List RItem) (acc : PDict × Option GeminiPart) :
    dget (items.foldl trStep acc).1 "error" = dget acc.1 "error" := by
  induction items generalizing acc with
  | nil => rfl
  | cons item rest ih =>
    rw [List.foldl_cons, ih]
    cases item with
    | text t => exact dget_dset_ne acc.1 "output" "error" (Value.str t) (by decide)
    | image mt d => exact dget_dset_ne acc.1 "has_screenshot" "error" (Value.bool true) (by decide)

/-- After the content loop, `response['output']` holds the text of the last
`Text` item (each `Text` item overwrites the previous value). -/
theorem foldl_trStep_output (items : List RItem) (acc : PDict × Option GeminiPart) :
    dget (items.foldl trStep acc).1 "output" =
      match lastText items with
      | some t => some (.str t)
      | none => dget acc.1 "output" := by
  induction items generalizing acc with
  | nil => rfl
  | cons item rest ih =>
    rw [List.foldl_cons, ih]
    cases item with
    | text t =>
      cases h : lastText rest with
      | some t' => simp [lastText, h]
      | none => simp [lastText, h, trStep, dget_dset_self]
    | image mt d =>
      cases h : lastText rest with
      | some t' => simp [lastText, h]
      | none =>
        simp only [lastText, h, trStep]
        exact dget_dset_ne acc.1 "has_screenshot" "output" (Value.bool true) (by decide)

/- ### Run-folding lemmas -/

/-- One function-response part is emitted per `tool_result` block. -/
theorem blockResults_fr_length (tmap : SMap) (bs : List CBlock) :
    (blockResults tmap bs).1.length = bs.countP isToolResultB := by
  induction bs with
  | nil => simp [blockResults]
  | cons b rest ih =>
    by_cases h : isToolResultB b
    · simp [blockResults, h, List.countP_cons, ih]
    · simp [blockResults, h, List.countP_cons, ih]

/-- Every part in the first component of `blockResults` is a
function-response part. -/
theorem blockResults_fr_shape (tmap : SMap) (bs : List CBlock) :
    ∀ p ∈ (blockResults tmap bs).1, ∃ nm resp, p = GeminiPart.functionResponse nm resp := by
  induction bs with
  | nil => simp [blockResults]
  | cons b rest ih =>
    by_cases h : isToolResultB b
    · intro p hp
      simp only [blockResults, h, if_pos, List.mem_cons] at hp
      rcases hp with hp | hp
      · exact ⟨_, _, hp⟩
      · exact ih p hp
    · intro p hp
      simp only [blockResults, h] at hp
      exact ih p hp

/-- The image slot after the content loop: either untouched or an
inline-data part. -/
theorem foldl_trStep_img (items : List RItem) (acc : PDict × Option GeminiPart) :
    (items.foldl trStep acc).2 = acc.2 ∨
      ∃ mt d, (items.foldl trStep acc).2 = some (GeminiPart.inlineData mt d) := by
  induction items generalizing acc with
  | nil => exact Or.inl rfl
  | cons item rest ih =>
    rw [List.foldl_cons]
    rcases ih (trStep acc item) with h | h
    · cases item with
      | text t => exact Or.inl h
      | image mt d => exact Or.inr ⟨mt, d, h⟩
    · exact Or.inr h

/-- The image slot of `_process_tool_result_block` is `none` or an
inline-data part. -/
theorem processToolResultBlock_img (b : CBlock) :
    (processToolResultBlock b).2.2 = none ∨
      ∃ mt d, (processToolResultBlock b).2.2 = some (GeminiPart.inlineData mt d) := by
  cases b with
  | toolResult tid c ie err =>
    cases err with
    | some e => exact Or.inl rfl
    | none =>
      cases c with
      | none => exact Or.inl rfl
      | some items =>
        have h := foldl_trStep_img items ([], none)
        simpa [processToolResultBlock] using h
  | text t => exact Or.inl rfl
  | image mt d => exact Or.inl rfl
  | toolUse id nm inp => exact Or.inl rfl
  | other => exact Or.inl rfl

/-- Every part in the second component of `blockResults` is an inline-data
(image) part. -/
theorem blockResults_img_shape (tmap : SMap) (bs : List CBlock) :
    ∀ p ∈ (blockResults tmap bs).2, ∃ mt d, p = GeminiPart.inlineData mt d := by
  induction bs with
  | nil => simp [blockResults]
  | cons b rest ih =>
    by_cases h : isToolResultB b
    · intro p hp
      simp only [blockResults, h, if_pos, List.mem_append] at hp
      rcases hp with hp | hp
      · rcases processToolResultBlock_img b with him | ⟨mt, d, him⟩
        · simp [him] at hp
        · simp only [him, List.mem_singleton] at hp
          exact ⟨mt, d, hp⟩
      · exact ih p hp
    · intro p hp
      simp only [blockResults, h] at hp
      exact ih p hp

/-- On a list of messages that all satisfy the run condition, the run
consumer collects every function response and every image, consumes all
messages and leaves nothing. -/
theorem processRun_all (tmap : SMap) (us : List Msg)
    (h : ∀ u ∈ us, startsRun u = true) :
    processRun tmap us =
      (us.flatMap (fun u => (blockResults tmap (contentBlocks u)).1),
       us.flatMap (fun u => (blockResults tmap (contentBlocks u)).2),
       us, []) := by
  induction us with
  | nil => rfl
  | cons u rest ih =>
    have hu : startsRun u = true := h u (List.mem_cons_self u rest)
    have hrest : ∀ v ∈ rest, startsRun v = true :=
      fun v hv => h v (List.mem_cons_of_mem u hv)
    simp [processRun, hu, ih hrest]


theorem runConsumed_le (ms : List Msg) : runConsumed ms ≤ ms.length := by
  induction ms with
  | nil => simp [runConsumed]
  | cons m rest ih =>
    by_cases h : startsRun m
    · simp [runConsumed, h]
      omega
    · simp [runConsumed, h]

/-- The run consumer leaves exactly the suffix past the consumed prefix:
the returned index of `_process_tool_result_messages` is
`start_idx + runConsumed`. -/
theorem processRun_rem (tmap : SMap) (ms : List Msg) :
    (processRun tmap ms).2.2.2 = ms.drop (runConsumed ms) := by
  induction ms with
  | nil => rfl
  | cons m rest ih =>
    by_cases h : startsRun m
    · simp [processRun, runConsumed, h, ih]
      rw [Nat.add_comm 1 (runConsumed rest), List.drop_succ_cons]
    · simp [processRun, runConsumed, h]


/-- A message satisfying the run condition has block content. -/
theorem startsRun_blocks (m : Msg) (h : startsRun m = true) :
    ∃ bs, m.content = MContent.blocks bs ∧ bs.any isToolResultB = true := by
  cases hc : m.content with
  | str s => simp [startsRun, hc] at h
  | blocks bs =>
    refine ⟨bs, rfl, ?_⟩
    simp only [startsRun, hc, Bool.and_eq_true] at h
    exact h.2

/-- A message satisfying the run condition has role `user`. -/
theorem startsRun_role (m : Msg) (h : startsRun m = true) : m.role = "user" := by
  simp only [startsRun, Bool.and_eq_true, decide_eq_true_eq] at h
  exact h.1

/-- A whole run of run-condition messages converts to exactly one provider
message: all function responses first, then all accumulated images. -/
theorem convertLoop_run (prev : Option Msg) (u : Msg) (us : List Msg)
    (hu : startsRun u = true)
    (hrest : ∀ v ∈ us, startsRun v = true)
    (hne : ((u :: us).flatMap
        (fun v => (blockResults (buildToolMap prev) (contentBlocks v)).1)) ≠ []) :
    convertLoop prev (u :: us) =
      [⟨"user",
        ((u :: us).flatMap
          (fun v => (blockResults (buildToolMap prev) (contentBlocks v)).1)) ++
        ((u :: us).flatMap
          (fun v => (blockResults (buildToolMap prev) (contentBlocks v)).2))⟩] := by
  obtain ⟨bs, hc, _⟩ := startsRun_blocks u hu
  have hrole : u.role = "user" := startsRun_role u hu
  have hcb : contentBlocks u = bs := by simp [contentBlocks, hc]
  rw [convertLoop]
  rw [hc]
  simp only [hu, if_pos, processRun_all (buildToolMap prev) us hrest]
  simp only [List.flatMap_cons, hcb] at hne ⊢
  obtain ⟨f, F, hF⟩ := List.exists_cons_of_ne_nil hne
  rw [hF]
  simp only [convertLoop]
  simp


/-- A run of messages with one `tool_result` each yields one function
response per message. -/
theorem flat_fr_length (tmap : SMap) (us : List Msg)
    (h : ∀ u ∈ us, ∃ bs, u.content = MContent.blocks bs ∧
        bs.countP isToolResultB = 1) :
    (us.flatMap (fun v => (blockResults tmap (contentBlocks v)).1)).length
      = us.length := by
  induction us with
  | nil => simp
  | cons u rest ih =>
    obtain ⟨bs, hc, hcount⟩ := h u (List.mem_cons_self u rest)
    have hcb : contentBlocks u = bs := by simp [contentBlocks, hc]
    have hrest := fun v hv => h v (List.mem_cons_of_mem u hv)
    simp only [List.flatMap_cons, List.length_append, ih hrest, hcb,
      blockResults_fr_length, hcount, List.length_cons]
    omega

/-- C3: an assistant message followed by N (≥1) consecutive user messages,
each containing exactly one `ToolResult`, converts to (at most one message
for the assistant turn and) exactly one provider message for the run, whose
parts are the N `FunctionResponse` parts in original message order followed
by the extracted images in encounter order. -/
theorem c3_tool_result_folding (a : Msg) (abs : List CBlock) (us : List Msg)
    (hrole : a.role = "assistant") (habs : a.content = MContent.blocks abs)
    (hus : us ≠ [])
    (husers : ∀ u ∈ us, u.role = "user" ∧ ∃ bs, u.content = MContent.blocks bs ∧
        bs.countP isToolResultB = 1)
    (_hnames : ∀ u ∈ us, ∀ b ∈ contentBlocks u, isToolResultB b = true →
        (sget (buildToolMap (some a)) (trId b)).isSome = true) :
    convert_anthropic_to_gemini_messages (a :: us) =
      (if (convertContentBlocks abs).isEmpty then []
       else [⟨"model", convertContentBlocks abs⟩]) ++
      [⟨"user",
        (us.flatMap (fun v => (blockResults (buildToolMap (some a)) (contentBlocks v)).1)) ++
        (us.flatMap (fun v => (blockResults (buildToolMap (some a)) (contentBlocks v)).2))⟩] ∧
    (us.flatMap (fun v => (blockResults (buildToolMap (some a)) (contentBlocks v)).1)).length
      = us.length ∧
    (∀ p ∈ us.flatMap (fun v => (blockResults (buildToolMap (some a)) (contentBlocks v)).1),
        ∃ nm resp, p = GeminiPart.functionResponse nm resp) ∧
    (∀ p ∈ us.flatMap (fun v => (blockResults (buildToolMap (some a)) (contentBlocks v)).2),
        ∃ mt d, p = GeminiPart.inlineData mt d) := by
  have hstarts : ∀ u ∈ us, startsRun u = true := by
    intro u hu
    obtain ⟨hr, bs, hc, hcount⟩ := husers u hu
    simp only [startsRun, hr, hc, Bool.and_eq_true, decide_eq_true_eq]
    refine ⟨trivial, ?_⟩
    rw [List.any_eq_true]
    have : 0 < bs.countP isToolResultB := by omega
    obtain ⟨x, hx, hpx⟩ := List.countP_pos_iff.mp this
    exact ⟨x, hx, hpx⟩
  have hlen :
      (us.flatMap (fun v => (blockResults (buildToolMap (some a)) (contentBlocks v)).1)).length
        = us.length :=
    flat_fr_length _ us (fun u hu => (husers u hu).2)
  have hne :
      (us.flatMap (fun v => (blockResults (buildToolMap (some a)) (contentBlocks v)).1)) ≠ [] := by
    intro hcontra
    have := hlen
    rw [hcontra] at this
    simp at this
    exact hus (List.length_eq_zero.mp this.symm)
  obtain ⟨u, us', rfl⟩ := List.exists_cons_of_ne_nil hus
  refine ⟨?_, hlen, ?_, ?_⟩
  · have hnotrun : startsRun a = false := by
      simp [startsRun, hrole]
    rw [convert_anthropic_to_gemini_messages, convertLoop]
    rw [habs]
    simp only [hnotrun, Bool.false_eq_true, if_neg, hrole]
    rw [convertLoop_run (some a) u us'
      (hstarts u (List.mem_cons_self u us'))
      (fun v hv => hstarts v (List.mem_cons_of_mem u hv)) hne]
    simp
  · intro p hp
    rw [List.mem_flatMap] at hp
    obtain ⟨v, _, hpv⟩ := hp
    exact blockResults_fr_shape _ _ p hpv
  · intro p hp
    rw [List.mem_flatMap] at hp
    obtain ⟨v, _, hpv⟩ := hp
    exact blockResults_img_shape _ _ p hpv

/-- `STOP_REASON_MAP.get` returns `end_turn` for everything except
`MAX_TOKENS`. -/
theorem stopReasonMap_ne_max (fr : String) (h : fr ≠ "MAX_TOKENS") :
    stopReasonMap fr = "end_turn" := by
  unfold stopReasonMap
  split_ifs <;> simp_all

/-- C4: a first candidate with ≥1 function call yields `tool_use` regardless
of finish signal; with zero function calls `MAX_TOKENS` yields `max_tokens`,
each recognized non-`MAX_TOKENS` signal and any unrecognized signal yields
`end_turn`; no candidates yields no blocks and `end_turn`. -/
theorem c4_stop_reason (nk : String → Except String String) (r : GResponse) :
    (r.candidates = [] →
        convert_gemini_to_anthropic_response nk r = ([], "end_turn")) ∧
    (∀ c rest parts, r.candidates = c :: rest → c.content = some parts →
        0 < parts.countP hasFC →
        (convert_gemini_to_anthropic_response nk r).2 = "tool_use") ∧
    (∀ c rest, r.candidates = c :: rest →
        (∀ parts, c.content = some parts → parts.countP hasFC = 0) →
        ((c.finish_reason = "MAX_TOKENS" →
            (convert_gemini_to_anthropic_response nk r).2 = "max_tokens") ∧
         (c.finish_reason ∈ ["STOP", "OTHER", "SAFETY", "RECITATION",
              "BLOCKLIST", "PROHIBITED_CONTENT", "SPII"] →
            (convert_gemini_to_anthropic_response nk r).2 = "end_turn") ∧
         (c.finish_reason ∉ ["STOP", "MAX_TOKENS", "SAFETY", "RECITATION",
              "OTHER", "BLOCKLIST", "PROHIBITED_CONTENT", "SPII"] →
            (convert_gemini_to_anthropic_response nk r).2 = "end_turn"))) := by
  refine ⟨?_, ?_, ?_⟩
  · intro h
    simp [convert_gemini_to_anthropic_response, h]
  · intro c rest parts hr hc hcount
    simp only [convert_gemini_to_anthropic_response, hr, hc]
    simp [hcount]
  · intro c rest hr hzero
    have hstop : (convert_gemini_to_anthropic_response nk r).2
        = stopReasonMap c.finish_reason := by
      cases hc : c.content with
      | none => simp [convert_gemini_to_anthropic_response, hr, hc]
      | some parts =>
        have := hzero parts hc
        simp [convert_gemini_to_anthropic_response, hr, hc, this]
    refine ⟨?_, ?_, ?_⟩
    · intro h
      rw [hstop, h]
      rfl
    · intro h
      rw [hstop]
      simp only [List.mem_cons, List.not_mem_nil, or_false] at h
      rcases h with h | h | h | h | h | h | h <;> rw [h] <;> rfl
    · intro h
      rw [hstop]
      apply stopReasonMap_ne_max
      intro hcontra
      exact h (by simp [hcontra])

/-- C1 counterexample: a user-turn `ToolResult` whose `isError` flag is true
but whose dict has no `error` key yields `{output: ...}` built from its
content — not `{error: ...}` — refuting the claim that the `isError` flag
selects the error mapping. -/
theorem c1_counterexample :
    convert_anthropic_to_gemini_messages
        [⟨"assistant", .blocks [.toolUse "t1" "computer" []]⟩,
         ⟨"user", .blocks [.toolResult "t1" (some [.text "boom"]) true none]⟩] =
      [⟨"model", [GeminiPart.functionCall "computer" []]⟩,
       ⟨"user", [GeminiPart.functionResponse "computer" [("output", Value.str "boom")]]⟩] ∧
    dget [("output", Value.str "boom")] "error" = none := by
  constructor
  · simp [convert_anthropic_to_gemini_messages, convertLoop, startsRun, isToolResultB,
      buildToolMap, blockResults, processRun, processToolResultBlock, contentBlocks,
      convertContentBlocks, sgetD, sget, sset, trStep, dset]
  · rfl

/-- C1 amended: the `{error: ...}` response is selected exactly by the
presence of an `error` key in the tool-result dict; the `is_error` flag is
never consulted, and without an `error` key the response carries no `error`
entry at all. -/
theorem c1_error_key_selects (tid : String) (c : Option (List RItem)) (ie : Bool) :
    (∀ e, (processToolResultBlock (.toolResult tid c ie (some e))).2.1
        = [("error", Value.str e)]) ∧
    dget (processToolResultBlock (.toolResult tid c ie none)).2.1 "error" = none := by
  constructor
  · intro e
    simp [processToolResultBlock]
  · cases c with
    | none => simp [processToolResultBlock, dget]
    | some items =>
      have herr := foldl_trStep_error items ([], none)
      by_cases he : (items.foldl trStep ([], none)).1.isEmpty
      · simp [processToolResultBlock, he, dget]
      · simp only [processToolResultBlock, Bool.not_eq_true] at he ⊢
        simp [he, herr, dget]

/-- C2 counterexample: a non-error `ToolResult` whose content has two `Text`
items `"a"` then `"b"` produces `response.output = "b"` (each text item
overwrites `output`), refuting the claim that the first `Text` item wins. -/
theorem c2_counterexample :
    convert_anthropic_to_gemini_messages
        [⟨"assistant", .blocks [.toolUse "t1" "computer" []]⟩,
         ⟨"user", .blocks [.toolResult "t1" (some [.text "a", .text "b"]) false none]⟩] =
      [⟨"model", [GeminiPart.functionCall "computer" []]⟩,
       ⟨"user", [GeminiPart.functionResponse "computer" [("output", Value.str "b")]]⟩] ∧
    ("b" : String) ≠ "a" := by
  constructor
  · simp [convert_anthropic_to_gemini_messages, convertLoop, startsRun, isToolResultB,
      buildToolMap, blockResults, processRun, processToolResultBlock, contentBlocks,
      convertContentBlocks, sgetD, sget, sset, trStep, dset]
  · decide

/-- C2 amended: for a non-error tool result (no `error` key) whose content
contains at least one `Text` item, `response.output` equals the text of the
**last** `Text` item of the content sequence. -/
theorem c2_output_is_last_text (tid : String) (items : List RItem) (ie : Bool)
    (t : String) (h : lastText items = some t) :
    dget (processToolResultBlock (.toolResult tid (some items) ie none)).2.1 "output"
      = some (Value.str t) := by
  have hout := foldl_trStep_output items ([], none)
  rw [h] at hout
  have hne := dget_isEmpty_false _ _ _ hout
  simp only [processToolResultBlock, hne]
  simpa using hout

/-- Witness for the amended C2 at content `[Text "a", Text "b"]`. -/
theorem c2_output_is_last_text_witness :
    dget (processToolResultBlock
        (.toolResult "t1" (some [.text "a", .text "b"]) false none)).2.1 "output"
      = some (Value.str "b") :=
  c2_output_is_last_text "t1" [.text "a", .text "b"] false "b" rfl

/- ### Scroll-normalization lemmas -/

theorem actionIs_iff (ti : PDict) (s : String) :
    actionIs ti s = true ↔ dget ti "action" = some (.str s) := by
  unfold actionIs
  rcases h : dget ti "action" with _ | v
  · simp
  · cases v <;> simp

theorem pct_coord_dget (ti : PDict) (k : String) (h : k ≠ "coordinate") :
    dget (pct_coord ti) k = dget ti k := by
  unfold pct_coord
  rcases hco : dget ti "coordinate" with _ | v
  · rfl
  · cases v <;> first
      | rfl
      | exact dget_dset_ne ti "coordinate" k _ (fun hc => h hc.symm)

theorem pct_click_skip (ti : PDict) (h : actionIs ti "click" = false) :
    pct_click ti = ti := by
  simp [pct_click, h]

theorem pct_key_skip (nk : String → Except String String) (ti : PDict)
    (h1 : actionIs ti "key" = false) (h2 : actionIs ti "hold_key" = false) :
    pct_key nk ti = Except.ok ti := by
  simp [pct_key, h1, h2]
  rfl

theorem pct_scroll_spec (ti : PDict) (h : actionIs ti "scroll" = true) :
    (∀ v, dget ti "scroll_amount" = some v → pyToInt v = none →
        dget (pct_scroll ti) "scroll_amount" = some v) ∧
    (∀ v, dget ti "scroll_direction" = some v →
        dget (pct_scroll ti) "scroll_direction"
          = some (.str (pyLower (pyStrV v)))) := by
  constructor
  · intro v hv hfail
    simp only [pct_scroll, if_pos h, hv, hfail]
    rcases hd : dget ti "scroll_direction" with _ | w
    · simp only [hd]
      exact hv
    · simp only [hd]
      rw [dget_dset_ne ti "scroll_direction" "scroll_amount" _ (by decide)]
      exact hv
  · intro v hv
    rcases ha : dget ti "scroll_amount" with _ | w
    · simp only [pct_scroll, if_pos h, ha, hv]
      exact dget_dset_self ti "scroll_direction" _
    · rcases hi : pyToInt w with _ | n
      · simp only [pct_scroll, if_pos h, ha, hi, hv]
        exact dget_dset_self ti "scroll_direction" _
      · simp only [pct_scroll, if_pos h, ha, hi,
          dget_dset_ne ti "scroll_amount" "scroll_direction" (Value.int n) (by decide), hv]
        exact dget_dset_self _ "scroll_direction" _

/-- C5 counterexample: with action `scroll`, the direction value `"UP"` is
outside `{up, down, left, right}` yet is **not** kept as-is: it is stored
lower-cased as `"up"`, refuting the "kept as-is" half of the claim. -/
theorem c5_counterexample :
    process_computer_tool (fun s => Except.ok s) "scroll"
        [("scroll_direction", Value.str "UP")] =
      Except.ok [("scroll_direction", Value.str "up"),
                 ("action", Value.str "scroll"),
                 ("api_type", Value.str "computer_20250124")] ∧
    ("UP" : String) ∉ allowedDirections ∧ ("up" : String) ≠ "UP" := by
  refine ⟨rfl, by decide, by decide⟩

/-- C5 amended: a `scroll` invocation never fails (always `.ok`); a
`scroll_amount` whose integer coercion fails is left with its original
value; `scroll_direction` is always stored lower-cased (and, lower-cased,
is kept whether or not it is an allowed direction — invalid values are only
logged, never rejected). The direction conjunct is stated for scalar
values, on which the embedded `str()` is exact. -/
theorem c5_scroll_normalization (nk : String → Except String String)
    (inp : PDict) :
    ∃ out, process_computer_tool nk "scroll" inp = Except.ok out ∧
      (∀ v, dget inp "scroll_amount" = some v → pyToInt v = none →
          dget out "scroll_amount" = some v) ∧
      (∀ v, v.isScalar = true → dget inp "scroll_direction" = some v →
          dget out "scroll_direction" = some (.str (pyLower (pyStrV v)))) := by
  have h1act : dget (pct_inject "scroll" inp) "action" = some (.str "scroll") := by
    unfold pct_inject
    rw [if_pos (by decide)]
    exact dget_dset_self inp "action" _
  have h1amt : dget (pct_inject "scroll" inp) "scroll_amount"
      = dget inp "scroll_amount" := by
    unfold pct_inject
    rw [if_pos (by decide)]
    exact dget_dset_ne inp "action" "scroll_amount" _ (by decide)
  have h1dir : dget (pct_inject "scroll" inp) "scroll_direction"
      = dget inp "scroll_direction" := by
    unfold pct_inject
    rw [if_pos (by decide)]
    exact dget_dset_ne inp "action" "scroll_direction" _ (by decide)
  have h2act : dget (pct_coord (pct_inject "scroll" inp)) "action"
      = some (.str "scroll") := by
    rw [pct_coord_dget _ "action" (by decide)]
    exact h1act
  have h2amt : dget (pct_coord (pct_inject "scroll" inp)) "scroll_amount"
      = dget inp "scroll_amount" := by
    rw [pct_coord_dget _ "scroll_amount" (by decide)]
    exact h1amt
  have h2dir : dget (pct_coord (pct_inject "scroll" inp)) "scroll_direction"
      = dget inp "scroll_direction" := by
    rw [pct_coord_dget _ "scroll_direction" (by decide)]
    exact h1dir
  have hscroll : actionIs (pct_coord (pct_inject "scroll" inp)) "scroll" = true :=
    (actionIs_iff _ "scroll").mpr h2act
  have hother : ∀ s : String, s ≠ "scroll" →
      actionIs (pct_coord (pct_inject "scroll" inp)) s = false := by
    intro s hs
    by_contra hb
    rw [Bool.not_eq_false] at hb
    have := h2act.symm.trans ((actionIs_iff _ s).mp hb)
    simp at this
    exact hs this.symm
  have hclick := hother "click" (by decide)
  have hkey := hother "key" (by decide)
  have hhold := hother "hold_key" (by decide)
  have hrun : process_computer_tool nk "scroll" inp =
      pct_key nk (pct_click (pct_coord (pct_inject "scroll" inp))) >>= fun ti =>
        pure (dset (pct_scroll ti) "api_type" (.str "computer_20250124")) := rfl
  refine ⟨dset (pct_scroll (pct_coord (pct_inject "scroll" inp))) "api_type"
      (.str "computer_20250124"), ?_, ?_, ?_⟩
  · rw [hrun, pct_click_skip _ hclick, pct_key_skip nk _ hkey hhold]
    rfl
  · intro v hv hfail
    rw [dget_dset_ne _ "api_type" "scroll_amount" _ (by decide)]
    exact (pct_scroll_spec _ hscroll).1 v (by rw [h2amt]; exact hv) hfail
  · intro v _hscal hv
    rw [dget_dset_ne _ "api_type" "scroll_direction" _ (by decide)]
    exact (pct_scroll_spec _ hscroll).2 v (by rw [h2dir]; exact hv)

/-- Witness for the amended C5: `scroll_amount = "abc"` stays `"abc"` and
`scroll_direction = "Diagonal"` is stored as the (invalid, only logged)
`"diagonal"`. -/
theorem c5_scroll_normalization_witness :
    ∃ out, process_computer_tool (fun s => Except.ok s) "scroll"
        [("scroll_amount", Value.str "abc"), ("scroll_direction", Value.str "Diagonal")]
      = Except.ok out ∧
      dget out "scroll_amount" = some (Value.str "abc") ∧
      dget out "scroll_direction" = some (Value.str "diagonal") := by
  obtain ⟨out, hout, hamt, hdir⟩ := c5_scroll_normalization (fun s => Except.ok s)
    [("scroll_amount", Value.str "abc"), ("scroll_direction", Value.str "Diagonal")]
  refine ⟨out, hout, ?_, ?_⟩
  · exact hamt (Value.str "abc") rfl rfl
  · exact hdir (Value.str "Diagonal") rfl rfl

/-- C6: a `left_click` call with empty args folds to the composite
`computer` tool with `input.action = "left_click"`, and re-running the
normalization pipeline on that already-composite invocation returns the
same block — the pipeline is idempotent on its own output. -/
theorem c6_primitive_folding_idempotent (nk : String → Except String String)
    (call_id : String) :
    convert_function_call nk "left_click" [] call_id =
      CBlock.toolUse call_id "computer"
        [("action", Value.str "left_click"),
         ("api_type", Value.str "computer_20250124")] ∧
    convert_function_call nk "computer"
        [("action", Value.str "left_click"),
         ("api_type", Value.str "computer_20250124")] call_id =
      convert_function_call nk "left_click" [] call_id :=
  ⟨rfl, rfl⟩

/-- C7: extraction args `{name: a, result: b}` without a `data` field are
wrapped into `{data: {name: a, result: b}}`; re-applying the transform to
the wrapped form — and to any args that already carry a `data` field —
is the identity. -/
theorem c7_extraction_wrapping (a b : Value) (args : PDict) :
    process_extraction_tool [("name", a), ("result", b)] =
      [("data", Value.dict [("name", a), ("result", b)])] ∧
    process_extraction_tool
        (process_extraction_tool [("name", a), ("result", b)]) =
      process_extraction_tool [("name", a), ("result", b)] ∧
    (dmem args "data" = true → process_extraction_tool args = args) := by
  refine ⟨rfl, rfl, ?_⟩
  intro h
  simp [process_extraction_tool, h]

/-- Witness for C7 at `a = "a"`, `b = "b"` and an args dict that already
has a `data` field. -/
theorem c7_extraction_wrapping_witness :
    process_extraction_tool [("data", Value.int 1), ("extra", Value.str "x")] =
      [("data", Value.int 1), ("extra", Value.str "x")] :=
  (c7_extraction_wrapping (Value.str "a") (Value.str "b")
    [("data", Value.int 1), ("extra", Value.str "x")]).2.2 rfl

/-- C8 counterexample: a `ToolResult` whose `toolUseId` is the empty string
(which matches no `ToolUse` id in the preceding assistant message) yields a
`FunctionResponse` named `"tool_call"` — not the raw (empty) `toolUseId`
string — because `block.get('tool_use_id') or 'tool_call'` replaces a falsy
id with `'tool_call'`. -/
theorem c8_counterexample :
    convert_anthropic_to_gemini_messages
        [⟨"assistant", .blocks [.text "x"]⟩,
         ⟨"user", .blocks [.toolResult "" (some [.text "ok"]) false none]⟩] =
      [⟨"model", [GeminiPart.text "x"]⟩,
       ⟨"user", [GeminiPart.functionResponse "tool_call"
          [("output", Value.str "ok")]]⟩] ∧
    ("tool_call" : String) ≠ "" := by
  constructor
  · simp [convert_anthropic_to_gemini_messages, convertLoop, startsRun, isToolResultB,
      buildToolMap, blockResults, processRun, processToolResultBlock, contentBlocks,
      convertContentBlocks, sgetD, sget, sset, trStep, dset]
  · decide

/-- C8 amended: a `ToolResult` with a **nonempty** `toolUseId` that the
correlation index does not know produces a `FunctionResponse` whose name is
the raw `toolUseId` string (and conversion is total — no error is raised);
an empty `toolUseId` is first replaced by the fallback `'tool_call'`. -/
theorem c8_correlation_fallback (prev : Option Msg) (tid : String)
    (content : Option (List RItem)) (ie : Bool) (err : Option String)
    (hne : tid ≠ "") (hmiss : sget (buildToolMap prev) tid = none) :
    (blockResults (buildToolMap prev) [.toolResult tid content ie err]).1 =
      [GeminiPart.functionResponse tid
        (processToolResultBlock (.toolResult tid content ie err)).2.1] := by
  have hid : (processToolResultBlock (.toolResult tid content ie err)).1 = tid := by
    simp [processToolResultBlock, hne]
  simp only [blockResults, isToolResultB, if_pos]
  rw [hid, sgetD, hmiss]
  rfl

/-- Witness for the amended C8: id `"t9"` absent from the index built from a
preceding assistant message that defines only `"t1"`. -/
theorem c8_correlation_fallback_witness :
    (blockResults
        (buildToolMap (some ⟨"assistant", .blocks [.toolUse "t1" "computer" []]⟩))
        [.toolResult "t9" (some [.text "ok"]) false none]).1 =
      [GeminiPart.functionResponse "t9"
        (processToolResultBlock (.toolResult "t9" (some [.text "ok"]) false none)).2.1] :=
  c8_correlation_fallback
    (some ⟨"assistant", .blocks [.toolUse "t1" "computer" []]⟩)
    "t9" (some [.text "ok"]) false none (by decide) rfl


/-- C9: for inputs whose message contents are strings or block lists (the
two cases of the embedded content type), one iteration of the main
conversion loop strictly advances the cursor, and never past the end — so
the conversion terminates after at most `msgs.length` iterations. -/
theorem c9_cursor_advances (msgs : List Msg) (i : Nat) (h : i < msgs.length) :
    i < nextIndex msgs i ∧ nextIndex msgs i ≤ msgs.length := by
  have hpos : 0 < (msgs.drop i).length := by
    rw [List.length_drop]
    omega
  obtain ⟨m, rest, hdrop⟩ :=
    List.exists_cons_of_ne_nil (List.ne_nil_of_length_pos hpos)
  have hlen : (msgs.drop i).length = msgs.length - i := List.length_drop i msgs
  rw [hdrop] at hlen
  simp only [List.length_cons] at hlen
  have hnext : nextIndex msgs i =
      (match m.content with
       | MContent.str _ => i + 1
       | MContent.blocks _ =>
           if startsRun m then i + 1 + runConsumed rest else i + 1) := by
    unfold nextIndex
    rw [hdrop]
  rw [hnext]
  cases hm : m.content with
  | str s =>
    show i < i + 1 ∧ i + 1 ≤ msgs.length
    refine ⟨by omega, by omega⟩
  | blocks bs =>
    show i < (if startsRun m then i + 1 + runConsumed rest else i + 1) ∧
        (if startsRun m then i + 1 + runConsumed rest else i + 1) ≤ msgs.length
    by_cases hs : startsRun m
    · simp only [hs, if_true]
      have := runConsumed_le rest
      refine ⟨by omega, by omega⟩
    · simp only [Bool.not_eq_true] at hs
      simp only [hs, Bool.false_eq_true, if_false]
      refine ⟨by omega, by omega⟩

/-- Witness for C9 at a one-message input and cursor 0. -/
theorem c9_cursor_advances_witness :
    0 < nextIndex [⟨"user", MContent.str "hi"⟩] 0 ∧
      nextIndex [⟨"user", MContent.str "hi"⟩] 0 ≤
        ([⟨"user", MContent.str "hi"⟩] : List Msg).length :=
  c9_cursor_advances [⟨"user", MContent.str "hi"⟩] 0 (by decide)

/-- C10: the stop reason is computed from the count of function-call parts
taken **before** normalization (it does not depend on the normalizer at
all), and a response whose only function call fails normalization — so that
a diagnostic text block is produced and no `tool_use` block at all — still
reports stop reason `tool_use`. -/
theorem c10_stop_reason_precounted :
    (∀ (nk₁ nk₂ : String → Except String String) (r : GResponse),
        (convert_gemini_to_anthropic_response nk₁ r).2
          = (convert_gemini_to_anthropic_response nk₂ r).2) ∧
    (convert_gemini_to_anthropic_response
        (fun _ => Except.error "normalization failure")
        ⟨[⟨some [⟨none, some ("key", [("text", Value.str "ctrl+c")])⟩], "STOP"⟩]⟩).1
      = [CBlock.text "Error processing function call key: normalization failure"] ∧
    ((convert_gemini_to_anthropic_response
        (fun _ => Except.error "normalization failure")
        ⟨[⟨some [⟨none, some ("key", [("text", Value.str "ctrl+c")])⟩], "STOP"⟩]⟩).1.all
        (fun b => !(isToolUseB b))) = true ∧
    (convert_gemini_to_anthropic_response
        (fun _ => Except.error "normalization failure")
        ⟨[⟨some [⟨none, some ("key", [("text", Value.str "ctrl+c")])⟩], "STOP"⟩]⟩).2
      = "tool_use" := by
  refine ⟨?_, rfl, rfl, rfl⟩
  intro nk₁ nk₂ r
  rcases r with ⟨cands⟩
  cases cands with
  | nil => rfl
  | cons c rest =>
    cases hc : c.content with
    | none => simp [convert_gemini_to_anthropic_response, hc]
    | some parts => simp [convert_gemini_to_anthropic_response, hc]

/-- Witness for C4: a response with one function-call part and finish
signal `STOP` reports `tool_use`. -/
theorem c4_stop_reason_witness :
    (convert_gemini_to_anthropic_response (fun s => Except.ok s)
        ⟨[⟨some [⟨none, some ("left_click", [])⟩], "STOP"⟩]⟩).2 = "tool_use" :=
  (c4_stop_reason (fun s => Except.ok s)
      ⟨[⟨some [⟨none, some ("left_click", [])⟩], "STOP"⟩]⟩).2.1
    ⟨some [⟨none, some ("left_click", [])⟩], "STOP"⟩ []
    [⟨none, some ("left_click", [])⟩] rfl rfl (by decide)

/-- Witness for C3: a 2-message run after an assistant turn defining both
tool names folds into one provider message with the two function responses
followed by the extracted image. -/
theorem c3_tool_result_folding_witness :
    convert_anthropic_to_gemini_messages
        [⟨"assistant", .blocks [.toolUse "t1" "computer" [],
                                .toolUse "t2" "extraction" []]⟩,
         ⟨"user", .blocks [.toolResult "t1" (some [.text "ok"]) false none]⟩,
         ⟨"user", .blocks [.toolResult "t2"
            (some [.text "ok2", .image "image/png" "xyz"]) false none]⟩] =
      [⟨"model", [GeminiPart.functionCall "computer" [],
                  GeminiPart.functionCall "extraction" []]⟩,
       ⟨"user", [GeminiPart.functionResponse "computer" [("output", Value.str "ok")],
                 GeminiPart.functionResponse "extraction"
                   [("output", Value.str "ok2"), ("has_screenshot", Value.bool true)],
                 GeminiPart.inlineData "image/png" "xyz"]⟩] := by
  rw [(c3_tool_result_folding
      ⟨"assistant", .blocks [.toolUse "t1" "computer" [],
                             .toolUse "t2" "extraction" []]⟩
      [.toolUse "t1" "computer" [], .toolUse "t2" "extraction" []]
      [⟨"user", .blocks [.toolResult "t1" (some [.text "ok"]) false none]⟩,
       ⟨"user", .blocks [.toolResult "t2"
          (some [.text "ok2", .image "image/png" "xyz"]) false none]⟩]
      rfl rfl (by simp)
      (by
        intro u hu
        simp only [List.mem_cons, List.not_mem_nil, or_false] at hu
        rcases hu with rfl | rfl
        · exact ⟨rfl, [.toolResult "t1" (some [.text "ok"]) false none], rfl, rfl⟩
        · exact ⟨rfl, [.toolResult "t2"
            (some [.text "ok2", .image "image/png" "xyz"]) false none], rfl, rfl⟩)
      (by decide)).1]
  rfl
